import Mathlib

/-!
# Verification of the vsslctrl control-plane client

Shallow embeddings of the event bus, connection manager, protocol framers and
zone/device session logic of the vsslctrl package, with theorems checking the
specification's claims against the code.

Conventions: Python ints are `Int` (or `Nat` for byte values and counters),
byte strings are `List Nat`, Python float arithmetic on the small integral
values appearing in the EQ mapping is exact, so it is embedded as `ℚ`
together with `pyInt`, the truncation performed by Python's `int()`.
-/

namespace Vsslctrl

/- ### EQ settings mapping (settings.py, class EQSettings) -/

/-- Embeds `EQSettings.MIN_VALUE` -/
def EQ_MIN_VALUE : Int := 90

/-- Embeds `EQSettings.MAX_VALUE` -/
def EQ_MAX_VALUE : Int := 110

/-- Embeds `EQSettings.MAX_VALUE_DB` -/
def EQ_MAX_VALUE_DB : Int := 10

/-- Python `int(q)`: truncation of a (float) value toward zero. -/
def pyInt (q : ℚ) : Int := if 0 ≤ q then ⌊q⌋ else -⌊-q⌋

/-- Embeds `EQSettings._clamp`: `int(max(self.MIN_VALUE, min(value, self.MAX_VALUE)))`. -/
def eqClamp (q : ℚ) : Int := pyInt (max (EQ_MIN_VALUE : ℚ) (min q (EQ_MAX_VALUE : ℚ)))

/-- Embeds `EQSettings._map_clamp(v, to_db=True)`:
`int(((self._clamp(v) - MIN_VALUE) / (MAX_VALUE - MIN_VALUE)) * 20 - MAX_VALUE_DB)`. -/
def raw_to_db (v : Int) : Int :=
  pyInt ((((eqClamp (v : ℚ) : ℚ) - (EQ_MIN_VALUE : ℚ)) /
    ((EQ_MAX_VALUE : ℚ) - (EQ_MIN_VALUE : ℚ))) * 20 - (EQ_MAX_VALUE_DB : ℚ))

/-- Embeds `EQSettings._map_clamp(d, to_db=False)`:
`self._clamp(((d + MAX_VALUE_DB) / 20) * (MAX_VALUE - MIN_VALUE) + MIN_VALUE)`. -/
def db_to_raw (d : Int) : Int :=
  eqClamp ((((d : ℚ) + (EQ_MAX_VALUE_DB : ℚ)) / 20) *
    ((EQ_MAX_VALUE : ℚ) - (EQ_MIN_VALUE : ℚ)) + (EQ_MIN_VALUE : ℚ))

theorem pyInt_intCast (n : Int) : pyInt (n : ℚ) = n := by
  unfold pyInt
  rcases le_or_lt 0 (n : ℚ) with h | h
  · rw [if_pos h, Int.floor_intCast]
  · rw [if_neg (not_le.mpr h)]
    rw [show -((n : ℚ)) = ((-n : Int) : ℚ) by push_cast; ring, Int.floor_intCast]
    ring

theorem eqClamp_intCast (n : Int) :
    eqClamp (n : ℚ) = max EQ_MIN_VALUE (min n EQ_MAX_VALUE) := by
  unfold eqClamp
  rw [show max (EQ_MIN_VALUE : ℚ) (min (n : ℚ) (EQ_MAX_VALUE : ℚ)) =
      ((max EQ_MIN_VALUE (min n EQ_MAX_VALUE) : Int) : ℚ) by push_cast; rfl]
  exact pyInt_intCast _

theorem eqClamp_of_mem (v : Int) (h1 : 90 ≤ v) (h2 : v ≤ 110) :
    eqClamp (v : ℚ) = v := by
  rw [eqClamp_intCast]
  unfold EQ_MIN_VALUE EQ_MAX_VALUE
  omega

theorem eqClamp_floor (q : ℚ) : eqClamp q = ⌊max (90 : ℚ) (min q 110)⌋ := by
  have h90 : (90 : ℚ) ≤ max (90 : ℚ) (min q 110) := le_max_left _ _
  have hpos : (0 : ℚ) ≤ max (90 : ℚ) (min q 110) := le_trans (by norm_num) h90
  unfold eqClamp pyInt EQ_MIN_VALUE EQ_MAX_VALUE
  push_cast
  rw [if_pos hpos]

theorem eqClamp_bounds (q : ℚ) : 90 ≤ eqClamp q ∧ eqClamp q ≤ 110 := by
  rw [eqClamp_floor]
  have h90 : (90 : ℚ) ≤ max (90 : ℚ) (min q 110) := le_max_left _ _
  have h110 : max (90 : ℚ) (min q 110) ≤ 110 := by
    apply max_le (by norm_num)
    exact min_le_right _ _
  constructor
  · exact Int.le_floor.mpr (by exact_mod_cast h90)
  · calc ⌊max (90 : ℚ) (min q 110)⌋ ≤ ⌊(110 : ℚ)⌋ := Int.floor_le_floor h110
    _ = 110 := by norm_num

theorem raw_to_db_eq (v : Int) : raw_to_db v = eqClamp (v : ℚ) - 100 := by
  unfold raw_to_db EQ_MIN_VALUE EQ_MAX_VALUE EQ_MAX_VALUE_DB
  rw [show (((eqClamp (v : ℚ) : ℚ) - ((90 : Int) : ℚ)) /
      (((110 : Int) : ℚ) - ((90 : Int) : ℚ))) * 20 - ((10 : Int) : ℚ) =
      ((eqClamp (v : ℚ) - 100 : Int) : ℚ) by push_cast; ring]
  exact pyInt_intCast _

theorem db_to_raw_eq (d : Int) : db_to_raw d = eqClamp ((d : ℚ) + 100) := by
  unfold db_to_raw EQ_MIN_VALUE EQ_MAX_VALUE EQ_MAX_VALUE_DB
  congr 1
  push_cast
  ring

/-- C9: for every integer v in [90,110], `db_to_raw (raw_to_db v) = v`, both
directions clamp into the documented ranges, and the boundary values map
exactly both ways: 90 ↔ −10 dB, 100 ↔ 0 dB, 110 ↔ +10 dB. -/
theorem eq_band_round_trip :
    (∀ v : Int, 90 ≤ v → v ≤ 110 →
      db_to_raw (raw_to_db v) = v ∧ -10 ≤ raw_to_db v ∧ raw_to_db v ≤ 10) ∧
    (∀ d : Int, 90 ≤ db_to_raw d ∧ db_to_raw d ≤ 110) ∧
    raw_to_db 90 = -10 ∧ raw_to_db 100 = 0 ∧ raw_to_db 110 = 10 ∧
    db_to_raw (-10) = 90 ∧ db_to_raw 0 = 100 ∧ db_to_raw 10 = 110 := by
  have key : ∀ v : Int, 90 ≤ v → v ≤ 110 → raw_to_db v = v - 100 := by
    intro v h1 h2
    rw [raw_to_db_eq, eqClamp_of_mem v h1 h2]
  have key2 : ∀ v : Int, 90 ≤ v → v ≤ 110 → db_to_raw (v - 100) = v := by
    intro v h1 h2
    rw [db_to_raw_eq]
    rw [show ((v - 100 : Int) : ℚ) + 100 = (v : ℚ) by push_cast; ring]
    exact eqClamp_of_mem v h1 h2
  refine ⟨?_, ?_, ?_, ?_, ?_, ?_, ?_, ?_⟩
  · intro v h1 h2
    refine ⟨?_, ?_, ?_⟩
    · rw [key v h1 h2]; exact key2 v h1 h2
    · rw [key v h1 h2]; omega
    · rw [key v h1 h2]; omega
  · intro d
    rw [db_to_raw_eq]
    exact eqClamp_bounds _
  · rw [key 90 (by norm_num) (by norm_num)]; norm_num
  · rw [key 100 (by norm_num) (by norm_num)]; norm_num
  · rw [key 110 (by norm_num) (by norm_num)]; norm_num
  · have h := key2 90 (by norm_num) (by norm_num)
    norm_num at h
    exact h
  · have h := key2 100 (by norm_num) (by norm_num)
    norm_num at h
    exact h
  · have h := key2 110 (by norm_num) (by norm_num)
    norm_num at h
    exact h

/-- Witness for C9 at concrete inputs. -/
theorem eq_band_round_trip_witness :
    db_to_raw (raw_to_db 97) = 97 ∧ 90 ≤ db_to_raw 3 ∧ raw_to_db 90 = -10 :=
  ⟨(eq_band_round_trip.1 97 (by norm_num) (by norm_num)).1,
   (eq_band_round_trip.2.1 3).1,
   eq_band_round_trip.2.2.1⟩

/- ### Connection manager (api_base.py, class APIBase) -/

/-- Embeds `APIBase.BACKOFF_MIN` -/
def BACKOFF_MIN : Nat := 15

/-- Embeds `APIBase.BACKOFF_MAX` -/
def BACKOFF_MAX : Nat := 300

/-- The `APIBase` state relevant to these claims: the `connection_event` flag
(`connected`), the `_connecting` flag, the outbound `_writer_queue` and the
`_reconnection_attempts` counter. -/
structure ConnState where
  connected : Bool
  connecting : Bool
  queue : List (List Nat)
  attempts : Nat
deriving DecidableEq, Repr

/-- Embeds `asyncio.Queue.put_nowait` on the unbounded `_writer_queue`: appends;
only a bounded queue can raise `QueueFull`, so this cannot raise. -/
def put_nowait (q : List (List Nat)) (d : List Nat) : Except String (List (List Nat)) :=
  Except.ok (q ++ [d])

/-- Embeds `APIBase.send`:
`if self._writer_queue and self.connected: self._writer_queue.put_nowait(data)`.
`_writer_queue` is an `asyncio.Queue` from construction onwards and a queue
object is always truthy, so the guard reduces to `self.connected`. -/
def send (st : ConnState) (d : List Nat) : Except String ConnState :=
  if st.connected then
    (put_nowait st.queue d).map fun q => { st with queue := q }
  else
    Except.ok st

/-- C10: calling `send` while disconnected raises nothing and changes nothing;
while connected it appends the data to the FIFO outbound queue. -/
theorem send_noop_or_enqueue :
    ∀ (st : ConnState) (d : List Nat),
      (st.connected = false → send st d = Except.ok st) ∧
      (st.connected = true →
        send st d = Except.ok { st with queue := st.queue ++ [d] }) := by
  intro st d
  constructor <;> intro h <;> simp [send, put_nowait, h, Except.map]

/-- Witness for C10 at concrete connection states. -/
theorem send_noop_or_enqueue_witness :
    send ⟨false, false, [[9]], 2⟩ [1, 2] = Except.ok ⟨false, false, [[9]], 2⟩ ∧
    send ⟨true, false, [[9]], 2⟩ [1, 2] = Except.ok ⟨true, false, [[9], [1, 2]], 2⟩ :=
  ⟨(send_noop_or_enqueue ⟨false, false, [[9]], 2⟩ [1, 2]).1 rfl,
   (send_noop_or_enqueue ⟨true, false, [[9]], 2⟩ [1, 2]).2 rfl⟩

/-- The backoff delay computed in `APIBase._keep_connected_loop`:
`min(max(self.BACKOFF_MIN, self.BACKOFF_MIN * self._reconnection_attempts), self.BACKOFF_MAX)`. -/
def backoffDelay (attempts : Nat) : Nat :=
  min (max BACKOFF_MIN (BACKOFF_MIN * attempts)) BACKOFF_MAX

/-- Embeds `APIBase._keep_connected_loop`, driven by the outcomes of the successive
`connect()` calls (`true` = returned, `false` = raised `ZoneConnectionError`).
Returns the final `_reconnection_attempts` counter and the computed backoff
delays in order. On success, `connect()` itself calls
`_cancel_keep_connected`, which resets the counter to zero, and the loop
exits. -/
def keepConnectedRun : List Bool → Nat → Nat × List Nat
  | [], a => (a, [])
  | true :: _, _ => (0, [])
  | false :: rest, a =>
    let r := keepConnectedRun rest (a + 1)
    (r.1, backoffDelay (a + 1) :: r.2)

theorem backoffDelay_mono {a b : Nat} (h : a ≤ b) : backoffDelay a ≤ backoffDelay b := by
  unfold backoffDelay BACKOFF_MIN BACKOFF_MAX
  omega

theorem keepConnectedRun_replicate (n a : Nat) :
    keepConnectedRun (List.replicate n false) a =
      (a + n, (List.range n).map fun i => backoffDelay (a + i + 1)) := by
  induction n generalizing a with
  | zero => simp [keepConnectedRun]
  | succ m ih =>
    rw [List.replicate_succ]
    have harg : ∀ i : Nat, a + 1 + i + 1 = a + (i + 1) + 1 := by omega
    simp [keepConnectedRun, ih (a + 1), List.range_succ_eq_map, List.map_map,
      Function.comp, harg]
    omega

/-- C5: within a run of consecutive failed reconnect attempts (counter
starting at zero, as `_cancel_keep_connected` leaves it), the computed delays
are pairwise non-decreasing, start at the floor `BACKOFF_MIN`, and all lie in
`[BACKOFF_MIN, BACKOFF_MAX]`; and after any successful `connect()` the
attempt counter is zero. -/
theorem backoff_monotone_and_reset :
    ∀ n : Nat,
      (List.Chain' (· ≤ ·) (keepConnectedRun (List.replicate n false) 0).2 ∧
       (∀ d ∈ (keepConnectedRun (List.replicate n false) 0).2,
          BACKOFF_MIN ≤ d ∧ d ≤ BACKOFF_MAX) ∧
       (0 < n →
        (keepConnectedRun (List.replicate n false) 0).2.head? = some BACKOFF_MIN)) ∧
      (∀ outs : List Bool, true ∈ outs → (keepConnectedRun outs 0).1 = 0) := by
  have reset : ∀ (outs : List Bool) (a : Nat), true ∈ outs →
      (keepConnectedRun outs a).1 = 0 := by
    intro outs
    induction outs with
    | nil => intro a h; simp at h
    | cons o rest ih =>
      intro a h
      cases o with
      | true => rfl
      | false =>
        have : true ∈ rest := by simpa using h
        simpa [keepConnectedRun] using ih (a + 1) this
  intro n
  rw [keepConnectedRun_replicate]
  refine ⟨⟨?_, ?_, ?_⟩, fun outs h => reset outs 0 h⟩
  · apply List.Pairwise.chain'
    apply List.Pairwise.map
    · intro i j (hij : i < j)
      exact backoffDelay_mono (by omega)
    · exact List.pairwise_lt_range n
  · intro d hd
    simp only [List.mem_map, List.mem_range] at hd
    obtain ⟨i, _, rfl⟩ := hd
    unfold backoffDelay BACKOFF_MIN BACKOFF_MAX
    omega
  · intro hn
    obtain ⟨m, rfl⟩ := Nat.exists_eq_succ_of_ne_zero (Nat.pos_iff_ne_zero.mp hn)
    simp [List.range_succ_eq_map]
    unfold backoffDelay BACKOFF_MIN BACKOFF_MAX
    omega

/-- Witness for C5 with 25 consecutive failures (delays reach the ceiling). -/
theorem backoff_monotone_and_reset_witness :
    (∀ d ∈ (keepConnectedRun (List.replicate 25 false) 0).2,
       BACKOFF_MIN ≤ d ∧ d ≤ BACKOFF_MAX) ∧
    (keepConnectedRun [false, false, true] 0).1 = 0 :=
  ⟨(backoff_monotone_and_reset 25).1.2.1,
   (backoff_monotone_and_reset 25).2 [false, false, true] (by decide)⟩

/-- Errors raised out of `APIBase.connect`: the normalised
`ZoneConnectionError`, or an arbitrary other exception re-raised as-is. -/
inductive PyErr where
  | zoneConnectionError (msg : String)
  | raisedOther (name : String)
deriving DecidableEq, Repr

/-- Embeds `isinstance(e, ZoneConnectionError)` -/
def isZoneConnectionError : PyErr → Bool
  | .zoneConnectionError _ => true
  | .raisedOther _ => false

/-- Outcome of `await asyncio.wait_for(asyncio.open_connection(host, port), TIMEOUT)`. -/
inductive OpenOutcome where
  | opened
  | timeout
  | cancelled
  | refused
  | exc (name : String)
deriving DecidableEq, Repr

/-- Embeds `APIBase.connect`: returns early when already connected; on success sets
the connection event and resets the attempt counter via
`_cancel_keep_connected`; `asyncio.TimeoutError` and `asyncio.CancelledError`
raise `ZoneConnectionError`, `ConnectionRefusedError` raises
`ZoneConnectionError`, and the generic `except Exception` branch clears the
connection event, logs, and re-raises the original exception; the `finally`
block clears `_connecting`. -/
def connect (st : ConnState) (out : OpenOutcome) : ConnState × Except PyErr Bool :=
  if st.connected then (st, Except.ok st.connected)
  else
    match out with
    | .opened =>
      ({ st with connected := true, attempts := 0, connecting := false },
        Except.ok true)
    | .timeout =>
      ({ st with connected := false, connecting := false },
        Except.error (.zoneConnectionError "timed out"))
    | .cancelled =>
      ({ st with connected := false, connecting := false },
        Except.error (.zoneConnectionError "timed out"))
    | .refused =>
      ({ st with connected := false, connecting := false },
        Except.error (.zoneConnectionError "refused"))
    | .exc n =>
      ({ st with connected := false, connecting := false },
        Except.error (.raisedOther n))

/-- C4 counterexample: an `OSError` from `open_connection` that is neither a
timeout nor a refusal is re-raised as-is by `connect()`, not normalised to
`ZoneConnectionError` (though the connection event is still cleared). -/
theorem connect_generic_error_counterexample :
    (connect ⟨false, false, [], 0⟩ (.exc "OSError")).2 =
      Except.error (PyErr.raisedOther "OSError") ∧
    isZoneConnectionError (PyErr.raisedOther "OSError") = false ∧
    (connect ⟨false, false, [], 0⟩ (.exc "OSError")).1.connected = false :=
  ⟨rfl, rfl, rfl⟩

/-- C4 amended: every failure of the initial `connect()` raises an error to
the caller with the connection event left cleared; timeout, cancellation and
refusal are normalised to `ZoneConnectionError`, while any other exception is
re-raised unchanged. -/
theorem connect_failure_normalisation :
    ∀ (st : ConnState) (out : OpenOutcome), st.connected = false →
      ((out = .timeout ∨ out = .cancelled ∨ out = .refused) →
        ∃ msg, (connect st out).2 = Except.error (.zoneConnectionError msg) ∧
          (connect st out).1.connected = false) ∧
      (∀ n, out = .exc n →
        (connect st out).2 = Except.error (.raisedOther n) ∧
        (connect st out).1.connected = false) := by
  intro st out hst
  constructor
  · rintro (rfl | rfl | rfl)
    · exact ⟨"timed out", by simp [connect, hst]⟩
    · exact ⟨"timed out", by simp [connect, hst]⟩
    · exact ⟨"refused", by simp [connect, hst]⟩
  · rintro n rfl
    simp [connect, hst]

/-- Witness for the amended C4 at concrete outcomes. -/
theorem connect_failure_normalisation_witness :
    (∃ msg, (connect ⟨false, false, [], 0⟩ .refused).2 =
       Except.error (.zoneConnectionError msg) ∧
       (connect ⟨false, false, [], 0⟩ .refused).1.connected = false) ∧
    ((connect ⟨false, false, [], 0⟩ (.exc "OSError")).2 =
       Except.error (.raisedOther "OSError") ∧
     (connect ⟨false, false, [], 0⟩ (.exc "OSError")).1.connected = false) :=
  ⟨(connect_failure_normalisation ⟨false, false, [], 0⟩ .refused rfl).1
      (Or.inr (Or.inr rfl)),
   (connect_failure_normalisation ⟨false, false, [], 0⟩ (.exc "OSError") rfl).2
      "OSError" rfl⟩

/- ### Zone state and the dedup-publish setters (zone.py, class Zone) -/

/-- Embeds `utils.clamp_volume`: `max(0, min(int(vol), 100))`. -/
def clamp_volume (v : Int) : Int := max 0 (min v 100)

/-- The `Zone` fields written through `Zone._set_property` that these claims
exercise, plus the `initialisation` flag read by `Zone._set_serial`. -/
structure ZoneState where
  volume : Int
  mute : Bool
  serial : Option String
  initialised : Bool
deriving DecidableEq, Repr

/-- Events published on the bus by a zone via `Zone._event_publish`. -/
inductive ZoneEvent where
  | volumeChange (v : Int)
  | muteChange (b : Bool)
  | serialReceived (s : String)
deriving DecidableEq, Repr

/-- The `Zone.mute` property getter: `True if not self._volume else self._mute`
(an int is falsy exactly when it is zero). -/
def zone_mute_getter (z : ZoneState) : Bool :=
  if z.volume = 0 then true else z.mute

/-- Embeds `Zone._set_volume`: clamps, stores when different, and returns `True`
exactly when it stored. -/
def zone_set_volume (z : ZoneState) (v : Int) : ZoneState × Bool :=
  let c := clamp_volume v
  if z.volume ≠ c then ({ z with volume := c }, true) else (z, false)

/-- Embeds `Zone._set_serial`: while the zone is not initialised it stores the serial
unconditionally and publishes `Zone.Events.SERIAL_RECEIVED`; it never returns
`True` (implicit `None`). -/
def zone_set_serial (z : ZoneState) (s : String) : ZoneState × Bool × List ZoneEvent :=
  if z.initialised = false then
    ({ z with serial := some s }, false, [ZoneEvent.serialReceived s])
  else
    (z, false, [])

/-- Embeds `Zone._set_property("volume", v)`: the direct setter `_set_volume` exists,
so `log = self._set_volume(v)`; when `log` is truthy one
`VOLUME_CHANGE` event is published with `getattr(self, "volume")`. -/
def zone_set_property_volume (z : ZoneState) (v : Int) : ZoneState × List ZoneEvent :=
  let r := zone_set_volume z v
  if r.2 then (r.1, [ZoneEvent.volumeChange r.1.volume]) else (r.1, [])

/-- Embeds `Zone._set_property("mute", b)`: no `_set_mute` exists, so the default
branch compares against the `mute` property getter, stores `_mute` when they
differ, and publishes one `MUTE_CHANGE` event with the property getter's
value. -/
def zone_set_property_mute (z : ZoneState) (b : Bool) : ZoneState × List ZoneEvent :=
  if zone_mute_getter z ≠ b then
    let z2 : ZoneState := { z with mute := b }
    (z2, [ZoneEvent.muteChange (zone_mute_getter z2)])
  else
    (z, [])

/-- Embeds `Zone._set_property("serial", s)`: the direct setter `_set_serial` exists
and always returns a falsy value, so `_set_property` itself publishes
nothing; the events are the ones `_set_serial` published. -/
def zone_set_property_serial (z : ZoneState) (s : String) : ZoneState × List ZoneEvent :=
  let r := zone_set_serial z s
  (r.1, r.2.2)

/-- C2 counterexample: a write of `serial` with the already-stored value on an
uninitialised zone changes nothing yet publishes one event; and a no-op write
of `mute` on a zone whose volume is zero publishes one event carrying `true`
rather than the written value `false`. -/
theorem set_property_dedup_counterexample :
    (zone_set_property_serial ⟨0, false, some "A1B2", false⟩ "A1B2").1.serial =
      some "A1B2" ∧
    (zone_set_property_serial ⟨0, false, some "A1B2", false⟩ "A1B2").2 =
      [ZoneEvent.serialReceived "A1B2"] ∧
    (zone_set_property_mute ⟨0, false, none, false⟩ false).1.mute = false ∧
    (zone_set_property_mute ⟨0, false, none, false⟩ false).2 =
      [ZoneEvent.muteChange true] := by
  refine ⟨rfl, rfl, rfl, rfl⟩

/-- C2 amended: for writes through `_set_property` whose read-back property is
the stored attribute itself and whose direct setter (if any) follows the
clamp-dedup pattern — volume always, mute whenever the volume is non-zero —
a write equal (after normalisation) to the stored value changes nothing and
publishes nothing, and a differing write stores the normalised value and
publishes exactly one change event carrying it. The exceptions are the
identity-style `serial` setter and the derived `mute` getter at volume zero,
exhibited in the counterexample. -/
theorem set_property_dedup :
    ∀ (z : ZoneState) (v : Int) (b : Bool),
      (clamp_volume v = z.volume → zone_set_property_volume z v = (z, [])) ∧
      (clamp_volume v ≠ z.volume →
        (zone_set_property_volume z v).1 = { z with volume := clamp_volume v } ∧
        (zone_set_property_volume z v).2 =
          [ZoneEvent.volumeChange (clamp_volume v)]) ∧
      (z.volume ≠ 0 →
        (b = z.mute → zone_set_property_mute z b = (z, [])) ∧
        (b ≠ z.mute →
          (zone_set_property_mute z b).1 = { z with mute := b } ∧
          (zone_set_property_mute z b).2 = [ZoneEvent.muteChange b])) := by
  intro z v b
  refine ⟨?_, ?_, ?_⟩
  · intro h
    simp [zone_set_property_volume, zone_set_volume, h]
  · intro h
    constructor <;>
      simp [zone_set_property_volume, zone_set_volume, Ne.symm h]
  · intro hv
    have hg : zone_mute_getter z = z.mute := by
      simp [zone_mute_getter, hv]
    constructor
    · intro hb
      simp [zone_set_property_mute, hg, hb]
    · intro hb
      have hne : zone_mute_getter z ≠ b := by
        rw [hg]; exact fun e => hb e.symm
      constructor
      · simp [zone_set_property_mute, hne]
      · simp [zone_set_property_mute, hne, zone_mute_getter, hv, Ne.symm hb]

/-- Witness for the amended C2: volume write 150 on a zone at volume 50 clamps
to 100 and publishes exactly one event; the same write repeated is a no-op. -/
theorem set_property_dedup_witness :
    (zone_set_property_volume ⟨50, false, none, false⟩ 150).1 =
      ⟨100, false, none, false⟩ ∧
    (zone_set_property_volume ⟨50, false, none, false⟩ 150).2 =
      [ZoneEvent.volumeChange 100] ∧
    zone_set_property_volume ⟨100, false, none, false⟩ 150 =
      (⟨100, false, none, false⟩, []) ∧
    zone_set_property_mute ⟨50, true, none, false⟩ false =
      (⟨50, false, none, false⟩, [ZoneEvent.muteChange false]) := by
  have h1 := (set_property_dedup ⟨50, false, none, false⟩ 150 false).2.1 (by decide)
  have h2 := (set_property_dedup ⟨100, false, none, false⟩ 150 false).1 (by decide)
  have h3 := ((set_property_dedup ⟨50, true, none, false⟩ 150 false).2.2
    (by decide)).2 (by decide)
  exact ⟨h1.1, h1.2, h2, by rw [Prod.ext_iff]; exact h3⟩

/- ### Event bus (event_bus.py, class EventBus)

Event types are the already-lowercased strings that `subscribe`,
`unsubscribe` and `publish_async` all normalise with `.lower()` at their
entry points, so the normalisation is the identity here and is omitted.
Callbacks are identified by numbers; invoking a callback appends an entry to
an invocation log, which is how "the callback was called with this data" is
observed. -/

/-- An entity value: Python `None`, the wildcard string `'*'`, or a concrete
entity id. -/
inductive Ent where
  | pyNone
  | wild
  | id (n : Nat)
deriving DecidableEq, Repr

/-- One element of `self.subscribers[event_type]`: the `(callback, entity,
once)` tuple appended by `EventBus.subscribe`. -/
structure Sub where
  cb : Nat
  entity : Ent
  once : Bool
deriving DecidableEq, Repr

/-- The `self.subscribers` dict, as an association list from event type to
subscription list (reachable states never hold duplicate keys). -/
abbrev Subs := List (String × List Sub)

/-- Embeds `self.subscribers[event_type]` (defaulting to the empty list; reachable
dicts bind each key once, so first-match lookup is dict lookup). -/
def getSubs : Subs → String → List Sub
  | [], _ => []
  | p :: rest, et => if p.1 == et then p.2 else getSubs rest et

/-- Embeds `event_type in self.subscribers` -/
def hasKey : Subs → String → Bool
  | [], _ => false
  | p :: rest, et => p.1 == et || hasKey rest et

/-- Rebinding `self.subscribers[event_type] = l`. -/
def setSubs (m : Subs) (et : String) (l : List Sub) : Subs :=
  m.map (fun p => if p.1 == et then (p.1, l) else p)

/-- Embeds `EventBus.subscribe` (entity defaults to `'*'`, once to `False`): creates
the key when absent, then appends the `(callback, entity, once)` tuple. -/
def subscribe (m : Subs) (et : String) (s : Sub) : Subs :=
  if hasKey m et then setSubs m et (getSubs m et ++ [s])
  else m ++ [(et, [s])]

/-- Embeds `EventBus.unsubscribe`: when the key exists, rebinds it to the list with
every tuple whose callback equals the argument removed; otherwise a no-op. -/
def unsubscribe (m : Subs) (et : String) (c : Nat) : Subs :=
  if hasKey m et then setSubs m et ((getSubs m et).filter (fun s => !(s.cb == c)))
  else m

/-- Embeds `EventBus.future`: registers a fresh one-shot callback (entity defaults
to Python `None`) whose invocation resolves the returned future. -/
def future (m : Subs) (et : String) (ent : Ent) (freshCb : Nat) : Subs :=
  subscribe m et ⟨freshCb, ent, true⟩

/-- The delivery guard in `EventBus.process_events`:
`entity is None or subscribed_entity == entity or subscribed_entity == '*'`. -/
def entMatches (subscribed eventEnt : Ent) : Bool :=
  eventEnt == Ent.pyNone || subscribed == eventEnt || subscribed == Ent.wild

/-- The observable state while the processing task drains the queue: the
subscribers dict and the log of callback invocations `(callback, data)`. -/
structure BusState (α : Type) where
  subs : Subs
  log : List (Nat × α)

/-- One `for callback, subscribed_entity, once in self.subscribers[...]` loop
of `process_events`: iterates over the snapshot list fetched at loop entry,
invokes each matching callback, and deregisters it at once when `once`. -/
def deliverList {α : Type} (snap : List Sub) (et : String) (ent : Ent) (d : α)
    (st : BusState α) : BusState α :=
  snap.foldl
    (fun acc s =>
      if entMatches s.entity ent then
        let acc2 : BusState α := { acc with log := acc.log ++ [(s.cb, d)] }
        if s.once then { acc2 with subs := unsubscribe acc2.subs et s.cb } else acc2
      else acc)
    st

/-- The `if event_type in self.subscribers` loop of `process_events`. -/
def processExact {α : Type} (st : BusState α) (e : String × Ent × α) : BusState α :=
  if hasKey st.subs e.1 then
    deliverList (getSubs st.subs e.1) e.1 e.2.1 e.2.2 st
  else st

/-- The `if '*' in self.subscribers` loop of `process_events`, run over the
dict as the first loop left it. -/
def processWild {α : Type} (st : BusState α) (e : String × Ent × α) : BusState α :=
  if hasKey st.subs "*" then
    deliverList (getSubs st.subs "*") "*" e.2.1 e.2.2 st
  else st

/-- Processing of one dequeued `(event_type, entity, data)` triple in
`EventBus.process_events`: the exact-name loop, then the wildcard-name loop. -/
def processEvent {α : Type} (st : BusState α) (e : String × Ent × α) : BusState α :=
  processWild (processExact st e) e

/-- Draining a queue of events in FIFO order. -/
def processQueue {α : Type} (st : BusState α) (es : List (String × Ent × α)) :
    BusState α :=
  es.foldl processEvent st

/-- The subscriptions of callback `c` inside one subscription list. -/
def cbFilter (l : List Sub) (c : Nat) : List Sub :=
  l.filter (fun s => s.cb == c)

/-- Callback `c` has no subscription anywhere in the dict. -/
def Absent (m : Subs) (c : Nat) : Prop :=
  ∀ p ∈ m, cbFilter p.2 c = []

/-- Callback `c` has no subscription under any key other than `et`. -/
def Confined (m : Subs) (c : Nat) (et : String) : Prop :=
  ∀ p ∈ m, p.1 ≠ et → cbFilter p.2 c = []

/-- Callback `c` is subscribed exactly once: as the one-shot `(c, ent, True)`
tuple under key `et`, and nowhere under any other key. -/
def PendingAt (m : Subs) (c : Nat) (et : String) (ent : Ent) : Prop :=
  cbFilter (getSubs m et) c = [⟨c, ent, true⟩] ∧ Confined m c et

/-- The invocations of callback `c` recorded in the log. -/
def logC {α : Type} (st : BusState α) (c : Nat) : List (Nat × α) :=
  st.log.filter (fun p => p.1 == c)

/-- Whether a dequeued event is delivered to a subscription under key `et`
with subscriber entity `ent` (for `et ≠ "*"`). -/
def evMatches {α : Type} (et : String) (ent : Ent) (e : String × Ent × α) : Bool :=
  e.1 == et && entMatches ent e.2.1

section EventBusLemmas

variable {α : Type}

theorem deliverList_log (snap : List Sub) (et : String) (ent : Ent) (d : α)
    (st : BusState α) :
    (deliverList snap et ent d st).log =
      st.log ++ (snap.filter (fun s => entMatches s.entity ent)).map
        (fun s => (s.cb, d)) := by
  induction snap generalizing st with
  | nil => simp [deliverList]
  | cons s rest ih =>
    by_cases h : entMatches s.entity ent
    · by_cases ho : s.once = true <;>
        simp [deliverList, h, ho, List.foldl_cons, ih, List.filter_cons] <;>
        simp [deliverList] at ih <;> rw [ih] <;> simp
    · simp only [Bool.not_eq_true] at h
      simp [deliverList, h, List.filter_cons]
      simp [deliverList] at ih
      rw [ih]

/-- The effect of one delivery-loop iteration on the subscribers dict alone. -/
def unsubStep (et : String) (ent : Ent) (ms : Subs) (s : Sub) : Subs :=
  if entMatches s.entity ent && s.once then unsubscribe ms et s.cb else ms

theorem deliverList_subs (snap : List Sub) (et : String) (ent : Ent) (d : α)
    (st : BusState α) :
    (deliverList snap et ent d st).subs = snap.foldl (unsubStep et ent) st.subs := by
  induction snap generalizing st with
  | nil => simp [deliverList]
  | cons s rest ih =>
    by_cases h : entMatches s.entity ent
    · by_cases ho : s.once = true <;>
        simp [deliverList, unsubStep, h, ho, List.foldl_cons] <;>
        simp [deliverList] at ih <;> rw [ih]
    · simp only [Bool.not_eq_true] at h
      simp [deliverList, unsubStep, h, List.foldl_cons]
      simp [deliverList] at ih
      rw [ih]

theorem cbFilter_append (l1 l2 : List Sub) (c : Nat) :
    cbFilter (l1 ++ l2) c = cbFilter l1 c ++ cbFilter l2 c := by
  simp [cbFilter]

theorem cbFilter_eq_nil {l : List Sub} {c : Nat} :
    cbFilter l c = [] ↔ ∀ s ∈ l, s.cb ≠ c := by
  simp [cbFilter, List.filter_eq_nil_iff]

theorem cbFilter_of_filter (l : List Sub) (q : Sub → Bool) (c : Nat) :
    cbFilter (l.filter q) c = (cbFilter l c).filter q := by
  simp only [cbFilter, List.filter_filter]
  exact List.filter_congr (fun s _ => by rw [Bool.and_comm])

theorem eq_of_cbFilter_singleton {l : List Sub} {c : Nat} {s0 s : Sub}
    (h : cbFilter l c = [s0]) (hs : s ∈ l) (hc : s.cb = c) : s = s0 := by
  have hmem : s ∈ cbFilter l c := List.mem_filter.mpr ⟨hs, by simp [hc]⟩
  rw [h] at hmem
  simpa using hmem

theorem mem_getSubs {m : Subs} {et : String} {s : Sub} (h : s ∈ getSubs m et) :
    ∃ p, p ∈ m ∧ p.1 = et ∧ s ∈ p.2 := by
  induction m with
  | nil => simp [getSubs] at h
  | cons p rest ih =>
    by_cases he : (p.1 == et) = true
    · rw [getSubs, if_pos he] at h
      exact ⟨p, List.mem_cons_self p rest, by simpa using he, h⟩
    · rw [getSubs, if_neg he] at h
      obtain ⟨q, hq, h1, h2⟩ := ih h
      exact ⟨q, List.mem_cons_of_mem p hq, h1, h2⟩

theorem hasKey_of_getSubs_ne_nil {m : Subs} {et : String} (h : getSubs m et ≠ []) :
    hasKey m et = true := by
  induction m with
  | nil => simp [getSubs] at h
  | cons p rest ih =>
    by_cases he : (p.1 == et) = true
    · simp [hasKey, he]
    · rw [getSubs, if_neg he] at h
      simp [hasKey, ih h]

theorem absent_cbFilter_getSubs {m : Subs} {c : Nat} (h : Absent m c) (et : String) :
    cbFilter (getSubs m et) c = [] := by
  induction m with
  | nil => rfl
  | cons p rest ih =>
    by_cases he : (p.1 == et) = true
    · rw [getSubs, if_pos he]
      exact h p (List.mem_cons_self p rest)
    · rw [getSubs, if_neg he]
      exact ih (fun q hq => h q (List.mem_cons_of_mem p hq))

theorem confined_cbFilter_getSubs_ne {m : Subs} {c : Nat} {et : String}
    (h : Confined m c et) {et2 : String} (hne : et2 ≠ et) :
    cbFilter (getSubs m et2) c = [] := by
  induction m with
  | nil => rfl
  | cons p rest ih =>
    by_cases he : (p.1 == et2) = true
    · rw [getSubs, if_pos he]
      exact h p (List.mem_cons_self p rest) (by rw [show p.1 = et2 by simpa using he]; exact hne)
    · rw [getSubs, if_neg he]
      exact ih (fun q hq => h q (List.mem_cons_of_mem p hq))

theorem mem_setSubs {m : Subs} {et : String} {l : List Sub} {p : String × List Sub}
    (hp : p ∈ setSubs m et l) :
    (p.1 = et ∧ p.2 = l) ∨ (p ∈ m ∧ p.1 ≠ et) := by
  unfold setSubs at hp
  obtain ⟨p0, hp0, heq⟩ := List.mem_map.mp hp
  by_cases he : (p0.1 == et) = true
  · left
    rw [if_pos he] at heq
    have : p0.1 = et := by simpa using he
    rw [← heq]
    exact ⟨this, rfl⟩
  · right
    rw [if_neg he] at heq
    subst heq
    exact ⟨hp0, by simpa using he⟩

theorem getSubs_setSubs_self {m : Subs} {et : String} (l : List Sub)
    (hk : hasKey m et = true) :
    getSubs (setSubs m et l) et = l := by
  induction m with
  | nil => simp [hasKey] at hk
  | cons p rest ih =>
    show getSubs ((if p.1 == et then (p.1, l) else p) :: setSubs rest et l) et = l
    by_cases he : (p.1 == et) = true
    · rw [if_pos he, getSubs, if_pos he]
    · have hk2 : hasKey rest et = true := by
        rw [hasKey] at hk
        simpa [he] using hk
      rw [if_neg he, getSubs, if_neg he]
      exact ih hk2

theorem getSubs_setSubs_ne {m : Subs} {et et2 : String} (l : List Sub)
    (h : et ≠ et2) :
    getSubs (setSubs m et2 l) et = getSubs m et := by
  induction m with
  | nil => rfl
  | cons p rest ih =>
    show getSubs ((if p.1 == et2 then (p.1, l) else p) :: setSubs rest et2 l) et =
      getSubs (p :: rest) et
    by_cases hq : (p.1 == et2) = true
    · have hp2 : p.1 = et2 := by simpa using hq
      have hpe : ¬((p.1 == et) = true) := by
        simp only [beq_iff_eq, hp2]
        exact fun e => h e.symm
      rw [if_pos hq, getSubs, getSubs]
      rw [if_neg hpe, if_neg hpe]
      exact ih
    · rw [if_neg hq, getSubs, getSubs]
      by_cases hpe : (p.1 == et) = true
      · rw [if_pos hpe, if_pos hpe]
      · rw [if_neg hpe, if_neg hpe]
        exact ih

theorem getSubs_append_single {m : Subs} {et : String} (l : List Sub)
    (hk : hasKey m et = false) :
    getSubs (m ++ [(et, l)]) et = l := by
  induction m with
  | nil => simp [getSubs]
  | cons p rest ih =>
    rw [hasKey] at hk
    have h1 : (p.1 == et) = false := by
      cases hpe : (p.1 == et) <;> simp [hpe] at hk ⊢
    have h2 : hasKey rest et = false := by
      simpa [h1] using hk
    rw [List.cons_append, getSubs, if_neg (by simp [h1])]
    exact ih h2

theorem absent_unsubscribe {m : Subs} {c : Nat} (h : Absent m c)
    (et2 : String) (c2 : Nat) :
    Absent (unsubscribe m et2 c2) c := by
  unfold unsubscribe
  by_cases hk : hasKey m et2 = true
  · rw [if_pos hk]
    intro p hp
    rcases mem_setSubs hp with ⟨_, h2⟩ | ⟨hm, _⟩
    · rw [h2, cbFilter_of_filter, absent_cbFilter_getSubs h et2]
      rfl
    · exact h p hm
  · rw [if_neg hk]
    exact h

theorem confined_unsubscribe {m : Subs} {c : Nat} {et : String}
    (h : Confined m c et) (et2 : String) (c2 : Nat) :
    Confined (unsubscribe m et2 c2) c et := by
  unfold unsubscribe
  by_cases hk : hasKey m et2 = true
  · rw [if_pos hk]
    intro p hp hpne
    rcases mem_setSubs hp with ⟨h1, h2⟩ | ⟨hm, _⟩
    · rw [h2, cbFilter_of_filter,
        confined_cbFilter_getSubs_ne h (h1 ▸ hpne)]
      rfl
    · exact h p hm hpne
  · rw [if_neg hk]
    exact h

theorem cbFilter_filter_not_self (l : List Sub) (c : Nat) :
    (cbFilter l c).filter (fun s => !(s.cb == c)) = [] := by
  apply List.filter_eq_nil_iff.mpr
  intro s hs
  have hc : s.cb = c := by
    have := List.mem_filter.mp hs
    simpa [cbFilter] using this.2
  simp [hc]

theorem key_ne_of_hasKey_eq_false {m : Subs} {et : String}
    (hk : hasKey m et = false) :
    ∀ p ∈ m, p.1 ≠ et := by
  induction m with
  | nil => intro p hp; simp at hp
  | cons q rest ih =>
    rw [hasKey] at hk
    rw [Bool.or_eq_false_iff] at hk
    intro p hp
    rcases List.mem_cons.mp hp with rfl | hp2
    · simpa using hk.1
    · exact ih hk.2 p hp2

theorem absent_unsubscribe_self {m : Subs} {c : Nat} {et : String}
    (h : Confined m c et) :
    Absent (unsubscribe m et c) c := by
  unfold unsubscribe
  by_cases hk : hasKey m et = true
  · rw [if_pos hk]
    intro p hp
    rcases mem_setSubs hp with ⟨_, h2⟩ | ⟨hm, hne⟩
    · rw [h2, cbFilter_of_filter, cbFilter_filter_not_self]
    · exact h p hm hne
  · rw [if_neg hk]
    intro p hp
    exact h p hp (key_ne_of_hasKey_eq_false (by simpa using hk) p hp)

theorem pending_unsubscribe_ne {m : Subs} {c : Nat} {et : String} {ent : Ent}
    (h : PendingAt m c et ent) {et2 : String} {c2 : Nat} (hc : c2 ≠ c) :
    PendingAt (unsubscribe m et2 c2) c et ent := by
  refine ⟨?_, confined_unsubscribe h.2 et2 c2⟩
  unfold unsubscribe
  by_cases hk : hasKey m et2 = true
  · rw [if_pos hk]
    by_cases he : et = et2
    · subst he
      rw [getSubs_setSubs_self _ hk, cbFilter_of_filter, h.1]
      simp [Ne.symm hc]
    · rw [getSubs_setSubs_ne _ he]
      exact h.1
  · rw [if_neg hk]
    exact h.1

theorem foldl_unsubStep_absent {snap : List Sub} {etk : String} {Y : Ent}
    {ms : Subs} {c : Nat} (h : Absent ms c) :
    Absent (snap.foldl (unsubStep etk Y) ms) c := by
  induction snap generalizing ms with
  | nil => exact h
  | cons s rest ih =>
    rw [List.foldl_cons]
    apply ih
    unfold unsubStep
    by_cases hc : (entMatches s.entity Y && s.once) = true
    · rw [if_pos hc]; exact absent_unsubscribe h etk s.cb
    · rw [if_neg hc]; exact h

theorem foldl_unsubStep_pending {snap : List Sub} {etk : String} {Y : Ent}
    {ms : Subs} {c : Nat} {et : String} {ent : Ent}
    (h : PendingAt ms c et ent)
    (hs : ∀ s ∈ snap, (entMatches s.entity Y && s.once) = true → s.cb ≠ c) :
    PendingAt (snap.foldl (unsubStep etk Y) ms) c et ent := by
  induction snap generalizing ms with
  | nil => exact h
  | cons s rest ih =>
    rw [List.foldl_cons]
    refine ih ?_ (fun s2 hs2 => hs s2 (List.mem_cons_of_mem s hs2))
    unfold unsubStep
    by_cases hc : (entMatches s.entity Y && s.once) = true
    · rw [if_pos hc]
      exact pending_unsubscribe_ne h (hs s (List.mem_cons_self s rest) hc)
    · rw [if_neg hc]; exact h

theorem filter_eq_singleton_split {l : List Sub} {p : Sub → Bool} {a : Sub}
    (h : l.filter p = [a]) :
    ∃ l1 l2, l = l1 ++ a :: l2 ∧ (∀ x ∈ l1, p x = false) ∧ l2.filter p = [] := by
  induction l with
  | nil => simp at h
  | cons x rest ih =>
    by_cases hx : p x = true
    · rw [List.filter_cons_of_pos hx] at h
      obtain ⟨hxa, hrest⟩ := List.cons_eq_cons.mp h
      exact ⟨[], rest, by simp [hxa], by simp, hrest⟩
    · rw [List.filter_cons_of_neg (by simpa using hx)] at h
      obtain ⟨l1, l2, hsplit, hl1, hl2⟩ := ih h
      exact ⟨x :: l1, l2, by simp [hsplit], by
        intro y hy
        rcases List.mem_cons.mp hy with rfl | hy2
        · simpa using hx
        · exact hl1 y hy2, hl2⟩

theorem deliverList_logC (snap : List Sub) (etk : String) (Y : Ent) (d : α)
    (st : BusState α) (c : Nat) :
    logC (deliverList snap etk Y d st) c =
      logC st c ++
        ((cbFilter snap c).filter (fun s => entMatches s.entity Y)).map
          (fun s => (s.cb, d)) := by
  unfold logC
  rw [deliverList_log, List.filter_append]
  congr 1
  rw [List.filter_map]
  have hcomp : ((fun pr : Nat × α => pr.1 == c) ∘ fun s : Sub => (s.cb, d)) =
      fun s : Sub => s.cb == c := rfl
  rw [hcomp]
  congr 1
  simp only [List.filter_filter, cbFilter]
  exact List.filter_congr (fun s _ => by rw [Bool.and_comm])

theorem deliverList_absent {st : BusState α} {c : Nat} (h : Absent st.subs c)
    (snap : List Sub) (etk : String) (Y : Ent) (d : α)
    (hsnap : cbFilter snap c = []) :
    Absent (deliverList snap etk Y d st).subs c ∧
    logC (deliverList snap etk Y d st) c = logC st c := by
  constructor
  · rw [deliverList_subs]
    exact foldl_unsubStep_absent h
  · rw [deliverList_logC, hsnap]
    simp

theorem deliverList_pending_freesnap {st : BusState α} {c : Nat} {et : String}
    {ent : Ent} (h : PendingAt st.subs c et ent)
    {snap : List Sub} (hsnap : cbFilter snap c = [])
    (etk : String) (Y : Ent) (d : α) :
    PendingAt (deliverList snap etk Y d st).subs c et ent ∧
    logC (deliverList snap etk Y d st) c = logC st c := by
  constructor
  · rw [deliverList_subs]
    exact foldl_unsubStep_pending h
      (fun s hs _ => cbFilter_eq_nil.mp hsnap s hs)
  · rw [deliverList_logC, hsnap]
    simp

theorem deliverList_pending_nomatch {st : BusState α} {c : Nat} {et : String}
    {ent Y : Ent} (h : PendingAt st.subs c et ent)
    (hm : entMatches ent Y = false) (d : α) :
    PendingAt (deliverList (getSubs st.subs et) et Y d st).subs c et ent ∧
    logC (deliverList (getSubs st.subs et) et Y d st) c = logC st c := by
  constructor
  · rw [deliverList_subs]
    apply foldl_unsubStep_pending h
    intro s hs hcond hc
    have hs0 : s = ⟨c, ent, true⟩ := eq_of_cbFilter_singleton h.1 hs hc
    rw [hs0] at hcond
    simp [hm] at hcond
  · rw [deliverList_logC, h.1]
    simp [hm]

theorem deliverList_fire {st : BusState α} {c : Nat} {et : String}
    {ent Y : Ent} (h : PendingAt st.subs c et ent)
    (hm : entMatches ent Y = true) (d : α) :
    Absent (deliverList (getSubs st.subs et) et Y d st).subs c ∧
    logC (deliverList (getSubs st.subs et) et Y d st) c =
      logC st c ++ [(c, d)] := by
  constructor
  · rw [deliverList_subs]
    obtain ⟨l1, l2, hsplit, hl1, hl2⟩ := filter_eq_singleton_split
      (show (getSubs st.subs et).filter (fun s => s.cb == c) =
        [⟨c, ent, true⟩] from h.1)
    rw [hsplit, List.foldl_append, List.foldl_cons]
    have hp1 : PendingAt (l1.foldl (unsubStep et Y) st.subs) c et ent :=
      foldl_unsubStep_pending h (fun s hs _ hc => by
        have hfalse := hl1 s hs
        simp [hc] at hfalse)
    have hstep : unsubStep et Y (l1.foldl (unsubStep et Y) st.subs)
        ⟨c, ent, true⟩ = unsubscribe (l1.foldl (unsubStep et Y) st.subs) et c := by
      unfold unsubStep
      simp [hm]
    rw [hstep]
    exact foldl_unsubStep_absent (absent_unsubscribe_self hp1.2)
  · rw [deliverList_logC, h.1]
    simp [hm]

theorem processExact_absent {st : BusState α} {c : Nat} (e : String × Ent × α)
    (h : Absent st.subs c) :
    Absent (processExact st e).subs c ∧ logC (processExact st e) c = logC st c := by
  unfold processExact
  by_cases hk : hasKey st.subs e.1 = true
  · rw [if_pos hk]
    exact deliverList_absent h _ _ _ _ (absent_cbFilter_getSubs h e.1)
  · rw [if_neg hk]
    exact ⟨h, rfl⟩

theorem processWild_absent {st : BusState α} {c : Nat} (e : String × Ent × α)
    (h : Absent st.subs c) :
    Absent (processWild st e).subs c ∧ logC (processWild st e) c = logC st c := by
  unfold processWild
  by_cases hk : hasKey st.subs "*" = true
  · rw [if_pos hk]
    exact deliverList_absent h _ _ _ _ (absent_cbFilter_getSubs h "*")
  · rw [if_neg hk]
    exact ⟨h, rfl⟩

theorem processEvent_absent {st : BusState α} {c : Nat} (e : String × Ent × α)
    (h : Absent st.subs c) :
    Absent (processEvent st e).subs c ∧ logC (processEvent st e) c = logC st c := by
  unfold processEvent
  have h1 := processExact_absent e h
  have h2 := processWild_absent e h1.1
  exact ⟨h2.1, h2.2.trans h1.2⟩

theorem processWild_pending {st : BusState α} {c : Nat} {et : String} {ent : Ent}
    (e : String × Ent × α) (h : PendingAt st.subs c et ent) (hw : et ≠ "*") :
    PendingAt (processWild st e).subs c et ent ∧
    logC (processWild st e) c = logC st c := by
  unfold processWild
  by_cases hk : hasKey st.subs "*" = true
  · rw [if_pos hk]
    exact deliverList_pending_freesnap h
      (confined_cbFilter_getSubs_ne h.2 (Ne.symm hw)) _ _ _
  · rw [if_neg hk]
    exact ⟨h, rfl⟩

theorem processEvent_pending_nomatch {st : BusState α} {c : Nat} {et : String}
    {ent : Ent} (e : String × Ent × α) (h : PendingAt st.subs c et ent)
    (hw : et ≠ "*") (hnm : evMatches et ent e = false) :
    PendingAt (processEvent st e).subs c et ent ∧
    logC (processEvent st e) c = logC st c := by
  unfold processEvent
  have hstage1 : PendingAt (processExact st e).subs c et ent ∧
      logC (processExact st e) c = logC st c := by
    unfold processExact
    by_cases hk : hasKey st.subs e.1 = true
    · rw [if_pos hk]
      by_cases he : e.1 = et
      · have hm : entMatches ent e.2.1 = false := by
          unfold evMatches at hnm
          simpa [he] using hnm
        rw [he]
        exact deliverList_pending_nomatch h hm e.2.2
      · exact deliverList_pending_freesnap h
          (confined_cbFilter_getSubs_ne h.2 he) _ _ _
    · rw [if_neg hk]
      exact ⟨h, rfl⟩
  have hstage2 := processWild_pending e hstage1.1 hw
  exact ⟨hstage2.1, hstage2.2.trans hstage1.2⟩

theorem processEvent_pending_match {st : BusState α} {c : Nat} {et : String}
    {ent : Ent} (e : String × Ent × α) (h : PendingAt st.subs c et ent)
    (hm : evMatches et ent e = true) :
    Absent (processEvent st e).subs c ∧
    logC (processEvent st e) c = logC st c ++ [(c, e.2.2)] := by
  unfold evMatches at hm
  rw [Bool.and_eq_true] at hm
  have he : e.1 = et := by simpa using hm.1
  have hment : entMatches ent e.2.1 = true := hm.2
  have hk : hasKey st.subs e.1 = true := by
    rw [he]
    apply hasKey_of_getSubs_ne_nil
    intro hnil
    have hcontra := h.1
    rw [hnil] at hcontra
    simp [cbFilter] at hcontra
  unfold processEvent processExact
  rw [if_pos hk, he]
  have hfire := deliverList_fire h hment e.2.2
  have hwild := processWild_absent e hfire.1
  exact ⟨hwild.1, hwild.2.trans hfire.2⟩

theorem processQueue_cons (st : BusState α) (e : String × Ent × α)
    (rest : List (String × Ent × α)) :
    processQueue st (e :: rest) = processQueue (processEvent st e) rest := rfl

theorem processQueue_append (st : BusState α) (l1 l2 : List (String × Ent × α)) :
    processQueue st (l1 ++ l2) = processQueue (processQueue st l1) l2 := by
  simp [processQueue]

theorem processQueue_absent {c : Nat} (es : List (String × Ent × α)) :
    ∀ st : BusState α, Absent st.subs c →
      Absent (processQueue st es).subs c ∧
      logC (processQueue st es) c = logC st c := by
  induction es with
  | nil => exact fun st h => ⟨h, rfl⟩
  | cons e rest ih =>
    intro st h
    rw [processQueue_cons]
    have h1 := processEvent_absent e h
    have h2 := ih _ h1.1
    exact ⟨h2.1, h2.2.trans h1.2⟩

theorem processQueue_pending_nomatch {c : Nat} {et : String} {ent : Ent}
    (hw : et ≠ "*") (es : List (String × Ent × α)) :
    ∀ st : BusState α, PendingAt st.subs c et ent →
      (∀ e ∈ es, evMatches et ent e = false) →
      PendingAt (processQueue st es).subs c et ent ∧
      logC (processQueue st es) c = logC st c := by
  induction es with
  | nil => exact fun st h _ => ⟨h, rfl⟩
  | cons e rest ih =>
    intro st h hes
    rw [processQueue_cons]
    have h1 := processEvent_pending_nomatch e h hw
      (hes e (List.mem_cons_self e rest))
    have h2 := ih _ h1.1 (fun e2 he2 => hes e2 (List.mem_cons_of_mem e he2))
    exact ⟨h2.1, h2.2.trans h1.2⟩

theorem future_pending {m : Subs} {c : Nat} {et : String} {ent : Ent}
    (h : Absent m c) :
    PendingAt (future m et ent c) c et ent := by
  unfold future subscribe
  by_cases hk : hasKey m et = true
  · rw [if_pos hk]
    constructor
    · rw [getSubs_setSubs_self _ hk, cbFilter_append, absent_cbFilter_getSubs h et]
      simp [cbFilter]
    · intro p hp hne
      rcases mem_setSubs hp with ⟨h1, _⟩ | ⟨hm2, _⟩
      · exact absurd h1 hne
      · exact h p hm2
  · rw [if_neg hk]
    constructor
    · rw [getSubs_append_single _ (by simpa using hk)]
      simp [cbFilter]
    · intro p hp hne
      rcases List.mem_append.mp hp with hp1 | hp2
      · exact h p hp1
      · have hpe : p = (et, [⟨c, ent, true⟩]) := by simpa using hp2
        rw [hpe] at hne
        simp at hne

/-- All of callback `c`'s subscriptions carry entity `X`. -/
def CbEnt (m : Subs) (c : Nat) (X : Ent) : Prop :=
  ∀ p ∈ m, ∀ s ∈ p.2, s.cb = c → s.entity = X

section EventBusScoping

variable {α : Type}

theorem cbEnt_unsubscribe {m : Subs} {c : Nat} {X : Ent} (h : CbEnt m c X)
    (et2 : String) (c2 : Nat) : CbEnt (unsubscribe m et2 c2) c X := by
  unfold unsubscribe
  by_cases hk : hasKey m et2 = true
  · rw [if_pos hk]
    intro p hp s hs hc
    rcases mem_setSubs hp with ⟨_, h2⟩ | ⟨hm2, _⟩
    · rw [h2] at hs
      have hs2 := List.mem_filter.mp hs
      obtain ⟨q, hq, _, hsq⟩ := mem_getSubs hs2.1
      exact h q hq s hsq hc
    · exact h p hm2 s hs hc
  · rw [if_neg hk]
    exact h

theorem cbEnt_foldl_unsubStep {snap : List Sub} {etk : String} {Y : Ent}
    {ms : Subs} {c : Nat} {X : Ent} (h : CbEnt ms c X) :
    CbEnt (snap.foldl (unsubStep etk Y) ms) c X := by
  induction snap generalizing ms with
  | nil => exact h
  | cons s rest ih =>
    rw [List.foldl_cons]
    apply ih
    unfold unsubStep
    by_cases hc : (entMatches s.entity Y && s.once) = true
    · rw [if_pos hc]; exact cbEnt_unsubscribe h etk s.cb
    · rw [if_neg hc]; exact h

theorem deliverList_cbEnt_log {st : BusState α} {c : Nat} {X Y : Ent}
    (h : CbEnt st.subs c X) (hm : entMatches X Y = false)
    {snap : List Sub} (hsnap : ∀ s ∈ snap, s.cb = c → s.entity = X)
    (etk : String) (d : α) :
    CbEnt (deliverList snap etk Y d st).subs c X ∧
    logC (deliverList snap etk Y d st) c = logC st c := by
  constructor
  · rw [deliverList_subs]
    exact cbEnt_foldl_unsubStep h
  · rw [deliverList_logC]
    have hnil : (cbFilter snap c).filter (fun s => entMatches s.entity Y) = [] := by
      apply List.filter_eq_nil_iff.mpr
      intro s hs
      have hmem := List.mem_filter.mp hs
      have hcb : s.cb = c := by simpa using hmem.2
      rw [hsnap s hmem.1 hcb, hm]
      simp
    rw [hnil]
    simp

theorem cbEnt_snapshot {m : Subs} {c : Nat} {X : Ent} (h : CbEnt m c X)
    (et2 : String) : ∀ s ∈ getSubs m et2, s.cb = c → s.entity = X := by
  intro s hs hc
  obtain ⟨p, hp, _, hsp⟩ := mem_getSubs hs
  exact h p hp s hsp hc

theorem processEvent_scoped_out {st : BusState α} {c : Nat} {X : Ent}
    (e : String × Ent × α) (h : CbEnt st.subs c X)
    (hm : entMatches X e.2.1 = false) :
    logC (processEvent st e) c = logC st c := by
  unfold processEvent
  have h1 : CbEnt (processExact st e).subs c X ∧
      logC (processExact st e) c = logC st c := by
    unfold processExact
    by_cases hk : hasKey st.subs e.1 = true
    · rw [if_pos hk]
      exact deliverList_cbEnt_log h hm (cbEnt_snapshot h e.1) _ _
    · rw [if_neg hk]; exact ⟨h, rfl⟩
  have h2 : logC (processWild (processExact st e) e) c =
      logC (processExact st e) c := by
    unfold processWild
    by_cases hk : hasKey (processExact st e).subs "*" = true
    · rw [if_pos hk]
      exact (deliverList_cbEnt_log h1.1 hm (cbEnt_snapshot h1.1 "*") _ _).2
    · rw [if_neg hk]
  exact h2.trans h1.2

theorem deliverList_mem_log {st : BusState α} {snap : List Sub} {s0 : Sub}
    (hs0 : s0 ∈ snap) {Y : Ent} (hm : entMatches s0.entity Y = true)
    (etk : String) (d : α) :
    (s0.cb, d) ∈ (deliverList snap etk Y d st).log := by
  rw [deliverList_log]
  refine List.mem_append_right _ ?_
  exact List.mem_map.mpr ⟨s0, List.mem_filter.mpr ⟨hs0, hm⟩, rfl⟩

theorem log_grows_deliverList (snap : List Sub) (etk : String) (Y : Ent) (d : α)
    (st : BusState α) {x : Nat × α} (hx : x ∈ st.log) :
    x ∈ (deliverList snap etk Y d st).log := by
  rw [deliverList_log]
  exact List.mem_append_left _ hx

end EventBusScoping

/-- C3: a fresh one-shot `future(event, entity)` subscription is invoked
exactly once over any queue of published events that contains a matching one:
it fires with the data of the first matching event, the subscription is
removed from the dict immediately after that delivery (before any later event
is processed), and later events — matching or not — neither invoke the
callback again nor re-register it. -/
theorem future_one_shot :
    ∀ (α : Type) (m : Subs) (c : Nat) (et : String) (ent : Ent)
      (pre post : List (String × Ent × α)) (e : String × Ent × α),
      Absent m c → et ≠ "*" →
      (∀ e2 ∈ pre, evMatches et ent e2 = false) →
      evMatches et ent e = true →
      logC (processQueue ⟨future m et ent c, []⟩ (pre ++ [e])) c = [(c, e.2.2)] ∧
      Absent (processQueue ⟨future m et ent c, []⟩ (pre ++ [e])).subs c ∧
      logC (processQueue ⟨future m et ent c, []⟩ (pre ++ e :: post)) c =
        [(c, e.2.2)] ∧
      Absent (processQueue ⟨future m et ent c, []⟩ (pre ++ e :: post)).subs c := by
  intro α m c et ent pre post e hab hw hpre hm
  have hp0 : PendingAt (future m et ent c) c et ent := future_pending hab
  have hq1 := processQueue_pending_nomatch hw pre ⟨future m et ent c, []⟩ hp0 hpre
  have hfire := processEvent_pending_match e hq1.1 hm
  have hlog0 : logC (⟨future m et ent c, []⟩ : BusState α) c = [] := rfl
  have heq1 : processQueue (⟨future m et ent c, []⟩ : BusState α) (pre ++ [e]) =
      processEvent (processQueue ⟨future m et ent c, []⟩ pre) e := by
    rw [processQueue_append]
    rfl
  have hstep : logC (processEvent
      (processQueue (⟨future m et ent c, []⟩ : BusState α) pre) e) c =
      [(c, e.2.2)] := by
    rw [hfire.2, hq1.2, hlog0]
    rfl
  have heq2 : pre ++ e :: post = (pre ++ [e]) ++ post := by simp
  have hpost := processQueue_absent post
    (processEvent (processQueue (⟨future m et ent c, []⟩ : BusState α) pre) e)
    hfire.1
  refine ⟨?_, ?_, ?_, ?_⟩
  · rw [heq1]; exact hstep
  · rw [heq1]; exact hfire.1
  · rw [heq2, processQueue_append, heq1]
    exact hpost.2.trans hstep
  · rw [heq2, processQueue_append, heq1]
    exact hpost.1

/-- Witness for C3: a fresh future on event "vol" fires once with 42 and is
gone, although a second matching event (with data 43) follows. -/
theorem future_one_shot_witness :
    logC (processQueue ⟨future [] "vol" Ent.pyNone 0, []⟩
      ([] ++ ("vol", Ent.pyNone, (42 : Nat)) ::
        [("vol", Ent.pyNone, (43 : Nat))])) 0 = [(0, 42)] ∧
    Absent (processQueue ⟨future [] "vol" Ent.pyNone 0, []⟩
      ([] ++ ("vol", Ent.pyNone, (42 : Nat)) ::
        [("vol", Ent.pyNone, (43 : Nat))])).subs 0 := by
  have h := future_one_shot Nat [] 0 "vol" Ent.pyNone []
    [("vol", Ent.pyNone, (43 : Nat))] ("vol", Ent.pyNone, (42 : Nat))
    (by intro p hp; simp at hp) (by decide)
    (by intro e2 he2; simp at he2) (by decide)
  exact ⟨h.2.2.1, h.2.2.2⟩

/-- C6 counterexample: an event published with entity `None` is delivered to
a subscriber registered under the concrete entity 1, although `None` is
neither that entity nor the wildcard. -/
theorem entity_scoping_counterexample :
    (processEvent ⟨[("e", [⟨0, Ent.id 1, false⟩])], []⟩
      ("e", Ent.pyNone, (42 : Nat))).log = [(0, 42)] ∧
    Ent.pyNone ≠ Ent.id 1 ∧ Ent.pyNone ≠ Ent.wild := by
  refine ⟨rfl, by decide, by decide⟩

/-- C6 amended: a subscriber registered under entity X never receives an
event published with entity Y when Y is neither X, nor the wildcard, nor the
unspecified entity `None` (an event published with entity `None` is delivered
to every subscriber of its name); a wildcard-entity subscriber receives the
event for every published entity Y. -/
theorem entity_scoping :
    ∀ (α : Type) (m : Subs) (l : List (Nat × α)) (c : Nat) (X : Ent)
      (e : String × Ent × α),
      (CbEnt m c X → e.2.1 ≠ Ent.pyNone → X ≠ e.2.1 → X ≠ Ent.wild →
        logC (processEvent ⟨m, l⟩ e) c = logC ⟨m, l⟩ c) ∧
      (∀ s0 ∈ getSubs m e.1, s0.cb = c → s0.entity = Ent.wild →
        (c, e.2.2) ∈ (processEvent ⟨m, l⟩ e).log) := by
  intro α m l c X e
  constructor
  · intro hC hY hXY hXw
    apply processEvent_scoped_out e hC
    unfold entMatches
    have h1 : (e.2.1 == Ent.pyNone) = false := by
      cases he : e.2.1 <;> simp_all
    have h2 : (X == e.2.1) = false := by
      simp [hXY]
    have h3 : (X == Ent.wild) = false := by
      simp [hXw]
    rw [h1, h2, h3]
    rfl
  · intro s0 hs0 hcb hent
    have hk : hasKey m e.1 = true :=
      hasKey_of_getSubs_ne_nil (by
        intro hnil
        rw [hnil] at hs0
        simp at hs0)
    have hmatch : entMatches s0.entity e.2.1 = true := by
      rw [hent]
      unfold entMatches
      simp
    unfold processEvent processExact
    rw [if_pos hk]
    have hmem0 : (s0.cb, e.2.2) ∈ (deliverList (getSubs m e.1) e.1 e.2.1 e.2.2
        (⟨m, l⟩ : BusState α)).log :=
      deliverList_mem_log hs0 hmatch e.1 e.2.2
    rw [hcb] at hmem0
    unfold processWild
    by_cases hk2 : hasKey (deliverList (getSubs m e.1) e.1 e.2.1 e.2.2
        (⟨m, l⟩ : BusState α)).subs "*" = true
    · rw [if_pos hk2]
      exact log_grows_deliverList _ _ _ _ _ hmem0
    · rw [if_neg hk2]
      exact hmem0

/-- Witness for the amended C6: an entity-1 subscriber is not invoked for an
entity-2 event, while a wildcard subscriber is. -/
theorem entity_scoping_witness :
    logC (processEvent ⟨[("e", [⟨0, Ent.id 1, false⟩])], []⟩
      ("e", Ent.id 2, (42 : Nat))) 0 =
      logC (⟨[("e", [⟨0, Ent.id 1, false⟩])], []⟩ : BusState Nat) 0 ∧
    (1, (42 : Nat)) ∈ (processEvent ⟨[("e", [⟨1, Ent.wild, false⟩])], []⟩
      ("e", Ent.id 2, (42 : Nat))).log := by
  have h1 := entity_scoping Nat [("e", [⟨0, Ent.id 1, false⟩])] [] 0 (Ent.id 1)
    ("e", Ent.id 2, 42)
  have h2 := entity_scoping Nat [("e", [⟨1, Ent.wild, false⟩])] [] 1 (Ent.id 1)
    ("e", Ent.id 2, 42)
  refine ⟨h1.1 ?_ (by decide) (by decide) (by decide),
    h2.2 ⟨1, Ent.wild, false⟩ ?_ rfl rfl⟩
  · unfold CbEnt
    decide
  · show Sub.mk 1 Ent.wild false ∈ getSubs [("e", [⟨1, Ent.wild, false⟩])] "e"
    decide

end EventBusLemmas

/- ### Protocol framing (api_base.py `_receive_first_byte`, api_alpha.py and
api_bravo.py `_read_byte_stream`) -/

/-- Embeds `APIBase.FRIST_BYTE` (sic) -/
def FRIST_BYTE : Nat := 1

/-- Embeds `APIAlpha.HEADER_LENGTH` -/
def ALPHA_HEADER_LENGTH : Nat := 3

/-- Embeds `APIBravo.HEADER_LENGTH` -/
def BRAVO_HEADER_LENGTH : Nat := 10

/-- Reading one byte from a chunked TCP byte stream (skipping exhausted
chunks); `none` means the stream has ended. -/
def popByte : List (List Nat) → Option (Nat × List (List Nat))
  | [] => none
  | [] :: cs => popByte cs
  | (b :: chunk) :: cs => some (b, chunk :: cs)

/-- Embeds `reader.readexactly(n)`: consumes exactly `n` bytes across chunk
boundaries, or fails (`IncompleteReadError`) when the stream ends first. -/
def readexactly : Nat → List (List Nat) → Option (List Nat × List (List Nat))
  | 0, cs => some ([], cs)
  | n + 1, cs =>
    match popByte cs with
    | none => none
    | some (b, cs2) =>
      match readexactly n cs2 with
      | none => none
      | some (bs, rest) => some (b :: bs, rest)

/-- Embeds `data[2]`, the payload length declared in a protocol-A header. -/
def alphaDeclaredLen (data : List Nat) : Nat := data.getD 2 0

/-- Embeds `int.from_bytes(data[8:10], "big")`, the payload length declared in a
protocol-B header. -/
def bravoDeclaredLen (data : List Nat) : Nat :=
  256 * data.getD 8 0 + data.getD 9 0

/-- The shared read pattern of both `_read_byte_stream` implementations,
preceded by the liveness-byte read of `APIBase._receive_first_byte`: read
`FRIST_BYTE` bytes, then `HEADER_LENGTH - FRIST_BYTE` header bytes, extract
the declared payload length from the assembled header, read exactly that
many payload bytes, and dispatch the whole frame. Returns the dispatched
frame, the sizes of the two reads performed after the liveness byte, and the
rest of the stream; `none` is an `IncompleteReadError`, which tears the
connection down without buffering a partial frame. -/
def readFrame (hdrLen : Nat) (lenOf : List Nat → Nat) (cs : List (List Nat)) :
    Option (List Nat × (Nat × Nat) × List (List Nat)) :=
  match readexactly FRIST_BYTE cs with
  | none => none
  | some (b0, cs1) =>
    match readexactly (hdrLen - FRIST_BYTE) cs1 with
    | none => none
    | some (hdr, cs2) =>
      match readexactly (lenOf (b0 ++ hdr)) cs2 with
      | none => none
      | some (payload, cs3) =>
        some (b0 ++ hdr ++ payload, (hdrLen - FRIST_BYTE, lenOf (b0 ++ hdr)), cs3)

/-- Embeds `APIAlpha._read_byte_stream`: a 3-byte header whose third byte is the
payload length (frames with length 1 go to the confirmation handler, the
rest to `_handle_response`; both are one dispatch of the whole frame). -/
def alphaReadFrame (cs : List (List Nat)) :
    Option (List Nat × (Nat × Nat) × List (List Nat)) :=
  readFrame ALPHA_HEADER_LENGTH alphaDeclaredLen cs

/-- Embeds `APIBravo._read_byte_stream`: a 10-byte header with a 2-byte big-endian
length at offset 8; every frame is dispatched to `_handle_response`. -/
def bravoReadFrame (cs : List (List Nat)) :
    Option (List Nat × (Nat × Nat) × List (List Nat)) :=
  readFrame BRAVO_HEADER_LENGTH bravoDeclaredLen cs

/-- The `while self.connected` loop of `APIBase._receive_first_byte`, run on
a finite stream: collects the dispatched frames in order until the stream is
exhausted (fuel bounds the number of iterations). -/
def frameRun (hdrLen : Nat) (lenOf : List Nat → Nat) :
    Nat → List (List Nat) → List (List Nat)
  | 0, _ => []
  | fuel + 1, cs =>
    match readFrame hdrLen lenOf cs with
    | none => []
    | some (frame, _, rest) => frame :: frameRun hdrLen lenOf fuel rest

/-- The receive loop of a protocol-A connection. -/
def alphaRun : Nat → List (List Nat) → List (List Nat) :=
  frameRun ALPHA_HEADER_LENGTH alphaDeclaredLen

/-- The receive loop of a protocol-B connection. -/
def bravoRun : Nat → List (List Nat) → List (List Nat) :=
  frameRun BRAVO_HEADER_LENGTH bravoDeclaredLen

/-- A well-formed protocol-A frame: total length = header + declared length. -/
def AlphaWF (f : List Nat) : Prop :=
  f.length = ALPHA_HEADER_LENGTH + alphaDeclaredLen f

/-- A well-formed protocol-B frame: total length = header + declared length. -/
def BravoWF (f : List Nat) : Prop :=
  f.length = BRAVO_HEADER_LENGTH + bravoDeclaredLen f

instance (f : List Nat) : Decidable (AlphaWF f) := by unfold AlphaWF; infer_instance

instance (f : List Nat) : Decidable (BravoWF f) := by unfold BravoWF; infer_instance

theorem popByte_none {cs : List (List Nat)} (h : popByte cs = none) :
    cs.flatten = [] := by
  induction cs with
  | nil => rfl
  | cons chunk rest ih =>
    cases chunk with
    | nil =>
      rw [popByte] at h
      simpa using ih h
    | cons b tail => simp [popByte] at h

theorem popByte_some {cs : List (List Nat)} {b : Nat} {cs2 : List (List Nat)}
    (h : popByte cs = some (b, cs2)) :
    cs.flatten = b :: cs2.flatten := by
  induction cs with
  | nil => simp [popByte] at h
  | cons chunk rest ih =>
    cases chunk with
    | nil =>
      rw [popByte] at h
      simpa using ih h
    | cons b2 tail =>
      rw [popByte] at h
      cases h
      simp

theorem popByte_total {cs : List (List Nat)} (h : cs.flatten ≠ []) :
    ∃ b cs2, popByte cs = some (b, cs2) := by
  cases hp : popByte cs with
  | none => exact absurd (popByte_none hp) h
  | some pr =>
    obtain ⟨b, cs2⟩ := pr
    exact ⟨b, cs2, rfl⟩

theorem readexactly_spec :
    ∀ (n : Nat) (cs : List (List Nat)) (bs : List Nat) (rest : List (List Nat)),
      readexactly n cs = some (bs, rest) →
      bs = cs.flatten.take n ∧ rest.flatten = cs.flatten.drop n ∧ bs.length = n := by
  intro n
  induction n with
  | zero =>
    intro cs bs rest h
    rw [readexactly] at h
    cases h
    simp
  | succ m ih =>
    intro cs bs rest h
    rw [readexactly] at h
    cases hp : popByte cs with
    | none =>
      simp only [hp] at h
      exact Option.noConfusion h
    | some pr =>
      obtain ⟨b, cs2⟩ := pr
      simp only [hp] at h
      cases hr : readexactly m cs2 with
      | none =>
        simp only [hr] at h
        exact Option.noConfusion h
      | some pr2 =>
        obtain ⟨bs0, rest0⟩ := pr2
        simp only [hr] at h
        cases h
        obtain ⟨h1, h2, h3⟩ := ih cs2 bs0 rest hr
        rw [popByte_some hp]
        refine ⟨?_, ?_, ?_⟩
        · rw [h1, List.take_succ_cons]
        · rw [h2, List.drop_succ_cons]
        · simp [h3]

theorem readexactly_total :
    ∀ (n : Nat) (cs : List (List Nat)), n ≤ cs.flatten.length →
      ∃ bs rest, readexactly n cs = some (bs, rest) := by
  intro n
  induction n with
  | zero => exact fun cs _ => ⟨[], cs, by rw [readexactly]⟩
  | succ m ih =>
    intro cs h
    have hne : cs.flatten ≠ [] := by
      intro he
      rw [he] at h
      simp at h
    obtain ⟨b, cs2, hp⟩ := popByte_total hne
    have hlen : m ≤ cs2.flatten.length := by
      have hfl := popByte_some hp
      rw [hfl] at h
      simpa using h
    obtain ⟨bs, rest, hr⟩ := ih cs2 hlen
    exact ⟨b :: bs, rest, by simp only [readexactly, hp, hr]⟩

theorem readexactly_none_of_short {n : Nat} {cs : List (List Nat)}
    (h : cs.flatten.length < n) : readexactly n cs = none := by
  cases hr : readexactly n cs with
  | none => rfl
  | some pr =>
    obtain ⟨bs, rest⟩ := pr
    have hspec := readexactly_spec n cs bs rest hr
    have hlen : bs.length ≤ cs.flatten.length := by
      rw [hspec.1]
      simp
    have := hspec.2.2
    omega

theorem readFrame_frame (hdrLen : Nat) (lenOf : List Nat → Nat)
    (h1 : 1 ≤ hdrLen) {f : List Nat}
    (hwf : f.length = hdrLen + lenOf f)
    (hTake : lenOf (f.take hdrLen) = lenOf f)
    (ds : List Nat) {cs : List (List Nat)} (hcs : cs.flatten = f ++ ds) :
    ∃ rest, readFrame hdrLen lenOf cs =
      some (f, (hdrLen - FRIST_BYTE, lenOf f), rest) ∧ rest.flatten = ds := by
  have hflen : hdrLen ≤ f.length := by omega
  have hlen1 : FRIST_BYTE ≤ cs.flatten.length := by
    rw [hcs]
    simp [FRIST_BYTE]
    omega
  obtain ⟨b0, cs1, hr1⟩ := readexactly_total FRIST_BYTE cs hlen1
  obtain ⟨hb0, hcs1, hb0len⟩ := readexactly_spec _ _ _ _ hr1
  have hlen2 : hdrLen - FRIST_BYTE ≤ cs1.flatten.length := by
    rw [hcs1, hcs]
    simp [FRIST_BYTE]
    omega
  obtain ⟨hdr, cs2, hr2⟩ := readexactly_total _ cs1 hlen2
  obtain ⟨hhdr, hcs2, hhdrlen⟩ := readexactly_spec _ _ _ _ hr2
  have hdata : b0 ++ hdr = f.take hdrLen := by
    rw [hb0, hhdr, hcs1, hcs]
    rw [← List.take_add]
    rw [show FRIST_BYTE + (hdrLen - FRIST_BYTE) = hdrLen by
      unfold FRIST_BYTE; omega]
    exact List.take_append_of_le_length hflen
  have hlenOf : lenOf (b0 ++ hdr) = lenOf f := by rw [hdata, hTake]
  have hcs2f : cs2.flatten = f.drop hdrLen ++ ds := by
    rw [hcs2, hcs1, hcs, List.drop_drop]
    rw [show FRIST_BYTE + (hdrLen - FRIST_BYTE) = hdrLen by
      unfold FRIST_BYTE; omega]
    exact List.drop_append_of_le_length hflen
  have hdroplen : (f.drop hdrLen).length = lenOf f := by
    simp [hwf]
  have hlen3 : lenOf f ≤ cs2.flatten.length := by
    rw [hcs2f]
    simp
    omega
  obtain ⟨payload, cs3, hr3⟩ := readexactly_total (lenOf f) cs2 hlen3
  obtain ⟨hpl, hcs3, hpllen⟩ := readexactly_spec _ _ _ _ hr3
  have hpayload : payload = f.drop hdrLen := by
    rw [hpl, hcs2f]
    exact List.take_left' hdroplen
  refine ⟨cs3, ?_, ?_⟩
  · simp only [readFrame, hr1, hr2, hlenOf, hr3]
    rw [hdata, hpayload, List.take_append_drop]
  · rw [hcs3, hcs2f]
    exact List.drop_left' hdroplen

theorem frameRun_exact (hdrLen : Nat) (lenOf : List Nat → Nat) (h1 : 1 ≤ hdrLen) :
    ∀ (fs : List (List Nat)) (cs : List (List Nat)) (fuel : Nat),
      (∀ f ∈ fs, f.length = hdrLen + lenOf f ∧ lenOf (f.take hdrLen) = lenOf f) →
      cs.flatten = fs.flatten → fs.length ≤ fuel →
      frameRun hdrLen lenOf fuel cs = fs := by
  intro fs
  induction fs with
  | nil =>
    intro cs fuel _ hcs _
    cases fuel with
    | zero => rfl
    | succ fu =>
      have hempty : cs.flatten.length < FRIST_BYTE := by
        rw [hcs]
        simp [FRIST_BYTE]
      rw [frameRun]
      simp only [readFrame, readexactly_none_of_short hempty]
  | cons f t ih =>
    intro cs fuel hfs hcs hfuel
    cases fuel with
    | zero => simp at hfuel
    | succ fu =>
      have hf := hfs f (List.mem_cons_self f t)
      obtain ⟨rest, hread, hrest⟩ := readFrame_frame hdrLen lenOf h1 hf.1 hf.2
        t.flatten (by rw [hcs]; simp)
      rw [frameRun]
      simp only [hread]
      rw [ih rest fu (fun g hg => hfs g (List.mem_cons_of_mem f hg)) hrest
        (by simpa using hfuel)]

/-- C1: concatenating N well-formed frames (protocol A: 3-byte header with
the payload length in byte 2; protocol B: 10-byte header with a 2-byte
big-endian length at offset 8) and feeding the bytes to the receive loop
under any chunking produces exactly N dispatches, each carrying exactly the
original frame's bytes; and for each frame the framer reads exactly
header-size − 1 bytes after the liveness byte, then exactly the declared
payload length. -/
theorem framing_integrity :
    ∀ (fsA fsB csA csB : List (List Nat)) (fuelA fuelB : Nat),
      (∀ f ∈ fsA, AlphaWF f) → (∀ f ∈ fsB, BravoWF f) →
      csA.flatten = fsA.flatten → csB.flatten = fsB.flatten →
      fsA.length ≤ fuelA → fsB.length ≤ fuelB →
      alphaRun fuelA csA = fsA ∧ bravoRun fuelB csB = fsB ∧
      (∀ (f ds : List Nat) (cs : List (List Nat)),
        AlphaWF f → cs.flatten = f ++ ds →
        ∃ rest, alphaReadFrame cs =
          some (f, (ALPHA_HEADER_LENGTH - FRIST_BYTE, alphaDeclaredLen f), rest) ∧
          rest.flatten = ds) ∧
      (∀ (f ds : List Nat) (cs : List (List Nat)),
        BravoWF f → cs.flatten = f ++ ds →
        ∃ rest, bravoReadFrame cs =
          some (f, (BRAVO_HEADER_LENGTH - FRIST_BYTE, bravoDeclaredLen f), rest) ∧
          rest.flatten = ds) := by
  have hTakeA : ∀ f : List Nat, AlphaWF f →
      alphaDeclaredLen (f.take ALPHA_HEADER_LENGTH) = alphaDeclaredLen f := by
    intro f _
    unfold alphaDeclaredLen ALPHA_HEADER_LENGTH
    rw [List.getD_eq_getElem?_getD, List.getD_eq_getElem?_getD,
      List.getElem?_take_of_lt (by omega)]
  have hTakeB : ∀ f : List Nat, BravoWF f →
      bravoDeclaredLen (f.take BRAVO_HEADER_LENGTH) = bravoDeclaredLen f := by
    intro f _
    unfold bravoDeclaredLen BRAVO_HEADER_LENGTH
    rw [List.getD_eq_getElem?_getD, List.getD_eq_getElem?_getD,
      List.getD_eq_getElem?_getD, List.getD_eq_getElem?_getD,
      List.getElem?_take_of_lt (by omega), List.getElem?_take_of_lt (by omega)]
  intro fsA fsB csA csB fuelA fuelB hA hB hcsA hcsB hfA hfB
  refine ⟨?_, ?_, ?_, ?_⟩
  · exact frameRun_exact ALPHA_HEADER_LENGTH alphaDeclaredLen (by decide) fsA csA
      fuelA (fun f hf => ⟨hA f hf, hTakeA f (hA f hf)⟩) hcsA hfA
  · exact frameRun_exact BRAVO_HEADER_LENGTH bravoDeclaredLen (by decide) fsB csB
      fuelB (fun f hf => ⟨hB f hf, hTakeB f (hB f hf)⟩) hcsB hfB
  · intro f ds cs hf hcs
    exact readFrame_frame ALPHA_HEADER_LENGTH alphaDeclaredLen (by decide) hf
      (hTakeA f hf) ds hcs
  · intro f ds cs hf hcs
    exact readFrame_frame BRAVO_HEADER_LENGTH bravoDeclaredLen (by decide) hf
      (hTakeB f hf) ds hcs

/-- Witness for C1: two protocol-A frames and one protocol-B frame
reassembled exactly from adversarially chunked streams. -/
theorem framing_integrity_witness :
    alphaRun 2 [[0, 8], [2, 65], [66, 16], [23, 1, 7]] =
      [[0, 8, 2, 65, 66], [16, 23, 1, 7]] ∧
    bravoRun 1 [[170], [170, 1, 3, 0, 0], [0, 0, 0, 2, 7], [8]] =
      [[170, 170, 1, 3, 0, 0, 0, 0, 0, 2, 7, 8]] := by
  have h := framing_integrity [[0, 8, 2, 65, 66], [16, 23, 1, 7]]
    [[170, 170, 1, 3, 0, 0, 0, 0, 0, 2, 7, 8]]
    [[0, 8], [2, 65], [66, 16], [23, 1, 7]]
    [[170], [170, 1, 3, 0, 0], [0, 0, 0, 2, 7], [8]] 2 1
    (by decide) (by decide) (by decide) (by decide) (by decide) (by decide)
  exact ⟨h.1, h.2.1⟩

/- ### Device session (core.py, class Vssl) -/

/-- Embeds `key.startswith("B") and key.endswith("Src")`, expressed over the
character list (a string starts with "B" when its first character is `B`,
and ends with "Src" when its last three characters are `Src`). -/
def isBusSrcKey (k : String) : Bool :=
  (k.data.take 1 == "B".data) && (k.data.reverse.take 3 == "Src".data.reverse)

/-- Embeds `Vssl._infer_model_zone_qty`: when no zone quantity is known yet, counts
the `B<n>Src` keys of the device-status payload, accepts counts of 1, 3 or 6
(any other count falls back to 1), stores the result and publishes
`MODEL_ZONE_QTY_CHANGE` carrying it. Returns the new zone quantity and the
published values. -/
def inferModelZoneQty (qty : Nat) (keys : Finset String) : Nat × List Nat :=
  if qty ≠ 0 then (qty, [])
  else
    let zone_count := (keys.filter (fun k => isBusSrcKey k = true)).card
    let q := if zone_count = 1 ∨ zone_count = 3 ∨ zone_count = 6 then zone_count
      else 1
    (q, [q])

/-- Outcome of `Vssl.initialise`. -/
inductive VsslInitOutcome where
  | noZonesError
  | modelTimeout (firstZoneDisconnected : Bool)
  | zoneQtyError (firstZoneDisconnected : Bool) (remainingInitialised : Nat)
  | ok (remainingInitialised : Nat)
deriving DecidableEq, Repr

/-- The decision structure of `Vssl.initialise`: fail when no zones were
added; initialise one zone first; when no model was pre-configured, await
the `MODEL_ZONE_QTY_CHANGE` future (`awaited = none` is the timeout); when
the configured zone count exceeds the resolved quantity, disconnect the
first zone and raise `VsslCtrlException` with zero remaining zones
initialised; only otherwise initialise the remaining `numZones − 1` zones. -/
def vsslInitialise (numZones qty0 : Nat) (awaited : Option Nat) :
    VsslInitOutcome :=
  if numZones < 1 then VsslInitOutcome.noZonesError
  else
    match (if qty0 ≠ 0 then some qty0 else awaited) with
    | none => VsslInitOutcome.modelTimeout true
    | some qty =>
      if numZones > qty then VsslInitOutcome.zoneQtyError true 0
      else VsslInitOutcome.ok (numZones - 1)

/-- C7: a device-status payload whose bus-source keys are exactly `B1Src`,
`B2Src`, `B3Src` makes the inferred model zone quantity resolve to 3 (and
publishes it); and whenever the configured zone count exceeds the resolved
quantity, device initialisation disconnects the first zone and raises a
configuration error instead of initialising the remaining zones. -/
theorem model_zone_qty_inference :
    ∀ (keys : Finset String) (numZones : Nat),
      "B1Src" ∈ keys → "B2Src" ∈ keys → "B3Src" ∈ keys →
      (∀ k ∈ keys, isBusSrcKey k = true →
        k = "B1Src" ∨ k = "B2Src" ∨ k = "B3Src") →
      (inferModelZoneQty 0 keys).1 = 3 ∧
      (inferModelZoneQty 0 keys).2 = [3] ∧
      (∀ qty : Nat, 1 ≤ numZones → numZones > qty →
        vsslInitialise numZones 0 (some qty) =
          VsslInitOutcome.zoneQtyError true 0) := by
  intro keys numZones h1 h2 h3 hexact
  have hfilter : keys.filter (fun k => isBusSrcKey k = true) =
      ({"B1Src", "B2Src", "B3Src"} : Finset String) := by
    apply Finset.ext
    intro k
    simp only [Finset.mem_filter, Finset.mem_insert, Finset.mem_singleton]
    constructor
    · rintro ⟨hk, hbus⟩
      exact hexact k hk hbus
    · rintro (rfl | rfl | rfl)
      · exact ⟨h1, by decide⟩
      · exact ⟨h2, by decide⟩
      · exact ⟨h3, by decide⟩
  have hcard : ({"B1Src", "B2Src", "B3Src"} : Finset String).card = 3 := by decide
  refine ⟨?_, ?_, ?_⟩
  · simp [inferModelZoneQty, hfilter, hcard]
  · simp [inferModelZoneQty, hfilter, hcard]
  · intro qty hn hgt
    unfold vsslInitialise
    rw [if_neg (by omega)]
    simp only [ne_eq, not_true_eq_false, ite_false]
    rw [if_pos hgt]

/-- Witness for C7: the A3.x status payload keys resolve to 3 zones, and a
4-zone configuration is rejected with the first zone disconnected. -/
theorem model_zone_qty_inference_witness :
    (inferModelZoneQty 0
      {"B1Src", "B2Src", "B3Src", "B1Nm", "B2Nm", "dev", "ver"}).1 = 3 ∧
    vsslInitialise 4 0 (some 3) = VsslInitOutcome.zoneQtyError true 0 := by
  have h := model_zone_qty_inference
    {"B1Src", "B2Src", "B3Src", "B1Nm", "B2Nm", "dev", "ver"} 4
    (by decide) (by decide) (by decide) (by decide)
  exact ⟨h.1, h.2.2 3 (by decide) (by decide)⟩

/- ### Zone initialisation handshake (zone.py Zone.initialise,
api_alpha.py response_action_00_08) -/

/-- Outcome of the checks at the end of `Zone.initialise`. -/
inductive ZoneInitOutcome where
  | idMismatch
  | serialMismatch
  | initialisedOk
deriving DecidableEq, Repr

/-- The observable result of `Zone.initialise` after both futures resolved:
which branch was taken, the `initialisation` flag, whether the zone was
disconnected, and the events published. -/
structure ZoneInitResult where
  outcome : ZoneInitOutcome
  initialised : Bool
  disconnected : Bool
  published : List String
deriving DecidableEq, Repr

/-- The tail of `Zone.initialise`: compare the received zone id with the
configured one, then the received serial with the device-level
`self.vssl.serial`; on either mismatch disconnect the zone and raise
`ZoneInitialisationError`; only otherwise set the `initialisation` event and
publish `Zone.Events.INITIALISED`. -/
def zoneInitialiseChecks (configuredId : Nat) (vsslSerial : Option String)
    (receivedId : Nat) (receivedSerial : String) : ZoneInitResult :=
  if receivedId ≠ configuredId then
    ⟨ZoneInitOutcome.idMismatch, false, true, []⟩
  else if vsslSerial ≠ some receivedSerial then
    ⟨ZoneInitOutcome.serialMismatch, false, true, []⟩
  else
    ⟨ZoneInitOutcome.initialisedOk, true, false, ["zone.initialised"]⟩

/-- The serial part of `APIAlpha.response_action_00_08` on an uninitialised
zone: `if self.vssl.serial == None`, the device-level serial is established
from this (first) zone's payload before the zone's own serial is stored. -/
def handle_00_08_serial (vsslSerial : Option String) (metaSerial : String) :
    Option String :=
  if vsslSerial = none then some metaSerial else vsslSerial

/-- C8: the zone is marked initialised and the `initialised` event published
exactly when the reported id equals the configured id and the reported
serial equals the device-level serial (which the first zone's status payload
establishes); on either mismatch the zone is disconnected, a fatal error is
raised, and the zone is never marked initialised. -/
theorem zone_initialise_checks :
    ∀ (configuredId receivedId : Nat) (vsslSerial : Option String)
      (receivedSerial metaSerial : String),
      ((zoneInitialiseChecks configuredId vsslSerial receivedId
          receivedSerial).initialised = true ↔
        (receivedId = configuredId ∧ vsslSerial = some receivedSerial)) ∧
      ((zoneInitialiseChecks configuredId vsslSerial receivedId
          receivedSerial).published = ["zone.initialised"] ↔
        (receivedId = configuredId ∧ vsslSerial = some receivedSerial)) ∧
      (receivedId ≠ configuredId →
        zoneInitialiseChecks configuredId vsslSerial receivedId receivedSerial =
          ⟨ZoneInitOutcome.idMismatch, false, true, []⟩) ∧
      (receivedId = configuredId → vsslSerial ≠ some receivedSerial →
        zoneInitialiseChecks configuredId vsslSerial receivedId receivedSerial =
          ⟨ZoneInitOutcome.serialMismatch, false, true, []⟩) ∧
      handle_00_08_serial none metaSerial = some metaSerial ∧
      (∀ s0 : String, handle_00_08_serial (some s0) metaSerial = some s0) := by
  intro configuredId receivedId vsslSerial receivedSerial metaSerial
  refine ⟨?_, ?_, ?_, ?_, ?_, ?_⟩
  · unfold zoneInitialiseChecks
    by_cases hid : receivedId = configuredId
    · by_cases hser : vsslSerial = some receivedSerial
      · simp [hid, hser]
      · simp [hid, hser]
    · simp [hid]
  · unfold zoneInitialiseChecks
    by_cases hid : receivedId = configuredId
    · by_cases hser : vsslSerial = some receivedSerial
      · simp [hid, hser]
      · simp [hid, hser]
    · simp [hid]
  · intro hid
    unfold zoneInitialiseChecks
    rw [if_pos hid]
  · intro hid hser
    unfold zoneInitialiseChecks
    rw [if_neg (by simpa using hid), if_pos hser]
  · rfl
  · intro s0
    rfl

/-- Witness for C8: matching id and serial initialise and publish; a serial
mismatch on a later zone disconnects without initialising. -/
theorem zone_initialise_checks_witness :
    (zoneInitialiseChecks 1 (some "ABC") 1 "ABC").initialised = true ∧
    zoneInitialiseChecks 2 (some "ABC") 2 "XYZ" =
      ⟨ZoneInitOutcome.serialMismatch, false, true, []⟩ ∧
    handle_00_08_serial none "ABC" = some "ABC" := by
  have h1 := zone_initialise_checks 1 1 (some "ABC") "ABC" "ABC"
  have h2 := zone_initialise_checks 2 2 (some "ABC") "XYZ" "ABC"
  exact ⟨h1.1.mpr ⟨rfl, rfl⟩, h2.2.2.2.1 rfl (by decide), h1.2.2.2.2.1⟩

end Vsslctrl
